import Mathlib

/-!
Verification of the scene-view interaction core of the `pygame-editor`
repository: the `EditorCamera` world/screen transform (`src/editor.py`),
`Scene` selection and hit-testing (`src/core.py`), the `SceneView`
pointer-motion handling (`src/editor.py`), and the inspector property
bindings (`DragLabel`, `TextInput`, `InspectorPanel.on_value_change` in
`src/ui.py`).

Numbers are embedded as exact rationals (`ℚ`): every arithmetic operation
in the source (add, subtract, multiply, divide, `max`, `min`, `abs`) is
exact on the inputs the claims quantify over, so an exact equality proved
here entails the "within floating tolerance" phrasings of the spec.
Mutating Python methods are embedded as state-passing functions.
-/

namespace PygameEditor

/-- `Vector2` from `src/core.py`: a plain 2D value. -/
@[ext] structure Vec2 where
  x : ℚ
  y : ℚ
deriving DecidableEq, Repr

/-- `Transform` from `src/core.py` (the fields the editor manipulates:
position, rotation in degrees, scale). -/
@[ext] structure Transform where
  position : Vec2
  rotation : ℚ
  scale : Vec2
deriving DecidableEq, Repr

/-- `GameObject` from `src/core.py`, restricted to the fields the
interaction core reads or writes (`name`, `transform`, `selected`,
`visible`). -/
@[ext] structure GameObject where
  name : String
  transform : Transform
  selected : Bool
  visible : Bool
deriving DecidableEq, Repr

/-- `GameObject.__init__`: default transform, unselected, visible. -/
def mkGameObject (name : String) : GameObject :=
  { name := name
    transform := { position := ⟨0, 0⟩, rotation := 0, scale := ⟨1, 1⟩ }
    selected := false
    visible := true }

/-- `Scene` from `src/core.py`.  Python holds the selection as an object
reference into `game_objects`; the embedding holds it as an index, which
models reference identity. -/
@[ext] structure Scene where
  game_objects : List GameObject
  selected_object : Option ℕ
deriving DecidableEq, Repr

/-- `EditorCamera.__init__` fields from `src/editor.py`. -/
@[ext] structure EditorCamera where
  position : Vec2
  zoom : ℚ
  min_zoom : ℚ
  max_zoom : ℚ
  viewport_center : Vec2
  viewport_size : Vec2
deriving DecidableEq, Repr

/-- `EditorCamera.__init__(viewport_width, viewport_height)`. -/
def initEditorCamera (vw vh : ℚ) : EditorCamera :=
  { position := ⟨0, 0⟩
    zoom := 1
    min_zoom := 1/10
    max_zoom := 10
    viewport_center := ⟨vw / 2, vh / 2⟩
    viewport_size := ⟨vw, vh⟩ }

/-- `EditorCamera.world_to_screen`. -/
def world_to_screen (c : EditorCamera) (world_pos : Vec2) : Vec2 :=
  ⟨(world_pos.x - c.position.x) * c.zoom + c.viewport_center.x,
   (world_pos.y - c.position.y) * c.zoom + c.viewport_center.y⟩

/-- `EditorCamera.screen_to_world`. -/
def screen_to_world (c : EditorCamera) (screen_pos : Vec2) : Vec2 :=
  ⟨(screen_pos.x - c.viewport_center.x) / c.zoom + c.position.x,
   (screen_pos.y - c.viewport_center.y) / c.zoom + c.position.y⟩

/-- `EditorCamera.pan(delta_x, delta_y)`. -/
def pan (c : EditorCamera) (delta_x delta_y : ℚ) : EditorCamera :=
  { c with position := ⟨c.position.x - delta_x / c.zoom,
                        c.position.y - delta_y / c.zoom⟩ }

/-- `EditorCamera.zoom_at_point(screen_point, zoom_factor)`: clamp the
multiplied zoom to `[min_zoom, max_zoom]`, then correct `position` by the
difference of the anchor point's world coordinates after and before. -/
def zoom_at_point (c : EditorCamera) (screen_point : Vec2) (zoom_factor : ℚ) :
    EditorCamera :=
  let world_point_before := screen_to_world c screen_point
  let new_zoom := c.zoom * zoom_factor
  let c1 := { c with zoom := max c.min_zoom (min c.max_zoom new_zoom) }
  let world_point_after := screen_to_world c1 screen_point
  { c1 with position := ⟨c1.position.x - (world_point_after.x - world_point_before.x),
                         c1.position.y - (world_point_after.y - world_point_before.y)⟩ }

/-- `EditorCamera.reset_view`. -/
def reset_view (c : EditorCamera) : EditorCamera :=
  { c with position := ⟨0, 0⟩, zoom := 1 }

/-- `EditorCamera.reset_zoom`. -/
def reset_zoom (c : EditorCamera) : EditorCamera :=
  { c with zoom := 1 }

/-- The camera operations a caller can perform (`src/editor.py`).
`world_to_screen`/`screen_to_world` are pure queries and do not appear. -/
inductive CameraOp where
  | zoomAt (screen_point : Vec2) (zoom_factor : ℚ) : CameraOp
  | panBy (delta_x delta_y : ℚ) : CameraOp
  | resetViewOp : CameraOp
  | resetZoomOp : CameraOp
deriving DecidableEq, Repr

/-- Dispatch one camera operation. -/
def applyOp (c : EditorCamera) : CameraOp → EditorCamera
  | .zoomAt p f => zoom_at_point c p f
  | .panBy dx dy => pan c dx dy
  | .resetViewOp => reset_view c
  | .resetZoomOp => reset_zoom c

/-- Apply a sequence of camera operations in order. -/
def applyOps (c : EditorCamera) (ops : List CameraOp) : EditorCamera :=
  ops.foldl applyOp c

/-- The zoom-range state invariant for a camera built by
`initEditorCamera`: stock limits and an in-range zoom. -/
def ZoomInv (c : EditorCamera) : Prop :=
  c.min_zoom = 1/10 ∧ c.max_zoom = 10 ∧ 1/10 ≤ c.zoom ∧ c.zoom ≤ 10

instance : DecidablePred ZoomInv := fun c => by
  unfold ZoomInv; infer_instance

/-- Update the element at index `i` of a list in place (the embedding of
a field assignment through an object reference held in the list). -/
def updateAt : List GameObject → ℕ → (GameObject → GameObject) → List GameObject
  | [], _, _ => []
  | o :: rest, 0, f => f o :: rest
  | o :: rest, n + 1, f => o :: updateAt rest n f

/-- `Scene.select_object(game_object)` from `src/core.py`: clear the
`selected` flag of the previously selected object (if any), record the
new selection, and set its `selected` flag (if not `None`). -/
def select_object (s : Scene) (game_object : Option ℕ) : Scene :=
  let objs1 :=
    match s.selected_object with
    | some i => updateAt s.game_objects i (fun o => { o with selected := false })
    | none => s.game_objects
  let objs2 :=
    match game_object with
    | some j => updateAt objs1 j (fun o => { o with selected := true })
    | none => objs1
  { game_objects := objs2, selected_object := game_object }

/-- C4's precondition/invariant: the selection index (when present) is in
range, and every object whose `selected` flag is set is the scene's
`selected_object` — so at most one object is marked selected and it is
exactly the tracked one. -/
def SelInv (s : Scene) : Prop :=
  (∀ i, s.selected_object = some i → i < s.game_objects.length) ∧
  (∀ j, ∀ o : GameObject, s.game_objects[j]? = some o → o.selected = true →
    s.selected_object = some j)

/-- Apply a finite sequence of `select_object` calls. -/
def applySelects (s : Scene) (calls : List (Option ℕ)) : Scene :=
  calls.foldl select_object s

/-- The loop body of `Scene.get_object_at_position` from `src/core.py`,
iterating a list of objects: skip invisible objects, otherwise test the
normalized ellipse containment `dx*dx + dy*dy <= 1.0` with semi-axes
`base_radius * max(0.01, |scale|) / 2` (base_radius = 32), returning the
first hit. -/
def findHit : List GameObject → ℚ → ℚ → Option GameObject
  | [], _, _ => none
  | obj :: rest, x, y =>
    if obj.visible then
      let base_radius : ℚ := 32
      let scale_x := max (1/100) |obj.transform.scale.x|
      let scale_y := max (1/100) |obj.transform.scale.y|
      let width := base_radius * scale_x / 2
      let height := base_radius * scale_y / 2
      let dx := (x - obj.transform.position.x) / width
      let dy := (y - obj.transform.position.y) / height
      if dx * dx + dy * dy ≤ 1 then some obj else findHit rest x y
    else findHit rest x y

/-- `Scene.get_object_at_position(x, y)`: iterate `reversed(game_objects)`
(top of draw order first). -/
def get_object_at_position (s : Scene) (x y : ℚ) : Option GameObject :=
  findHit s.game_objects.reverse x y

/-- The footprint predicate exactly as C5 words it: the object is visible
and the query point lies in the ellipse centered at `transform.position`
with semi-axes `(32 * max(0.01, |scale.x|)) / 2` and
`(32 * max(0.01, |scale.y|)) / 2`, tested as `dx² + dy² ≤ 1` after
normalizing the offsets by the semi-axes. -/
def hitsEllipse (obj : GameObject) (x y : ℚ) : Bool :=
  let sa_x := (32 * max (1/100) |obj.transform.scale.x|) / 2
  let sa_y := (32 * max (1/100) |obj.transform.scale.y|) / 2
  obj.visible &&
    decide (((x - obj.transform.position.x) / sa_x) ^ 2
      + ((y - obj.transform.position.y) / sa_y) ^ 2 ≤ 1)

/-- The state-passing embedding of the `get_object_at_position` method:
the scene state is threaded through every loop iteration, mirroring that
no statement of the method assigns to the scene or to any object. -/
def findHitM : Scene → List GameObject → ℚ → ℚ → Scene × Option GameObject
  | s, [], _, _ => (s, none)
  | s, obj :: rest, x, y =>
    if obj.visible then
      if hitsEllipse obj x y then (s, some obj) else findHitM s rest x y
    else findHitM s rest x y

/-- Method-call embedding: run the loop on `reversed(game_objects)`. -/
def get_object_at_position_method (s : Scene) (x y : ℚ) :
    Scene × Option GameObject :=
  findHitM s s.game_objects.reverse x y

/-- The `SceneView` interaction state from `src/editor.py`
(`__init__` lines), restricted to the fields its pointer-motion handling
reads or writes.  `dragged_object` is the index of the dragged object in
`scene.game_objects` (a Python object reference). -/
structure SceneView where
  camera : EditorCamera
  scene : Scene
  rect_x : ℚ
  rect_y : ℚ
  is_panning : Bool
  last_mouse_pos : Vec2
  hovered : Bool
  is_dragging_object : Bool
  dragged_object : Option ℕ
  is_playing : Bool

/-- The `MOUSEMOTION` branch of `SceneView.handle_event` from
`src/editor.py`: bail out when not hovered; compute the local mouse
position by subtracting the view rectangle origin; while panning, pan by
the delta from `last_mouse_pos` and remember the new position; else,
while dragging an object in edit mode, assign
`camera.screen_to_world(local_mouse_pos)` directly to the dragged
object's `transform.position`.  Returns the new state and the handler's
boolean result. -/
def handle_mouse_motion (sv : SceneView) (mouse : Vec2) : SceneView × Bool :=
  if sv.hovered = false then (sv, false)
  else
    let local_mouse_pos : Vec2 := ⟨mouse.x - sv.rect_x, mouse.y - sv.rect_y⟩
    if sv.is_panning then
      ({ sv with
          camera := pan sv.camera (local_mouse_pos.x - sv.last_mouse_pos.x)
            (local_mouse_pos.y - sv.last_mouse_pos.y)
          last_mouse_pos := local_mouse_pos }, true)
    else
      match sv.dragged_object with
      | some i =>
          if sv.is_dragging_object && !sv.is_playing then
            let world_pos := screen_to_world sv.camera local_mouse_pos
            ({ sv with
                scene := { sv.scene with
                  game_objects := updateAt sv.scene.game_objects i
                    (fun o => { o with
                      transform := { o.transform with position := world_pos } }) } },
              true)
          else (sv, false)
      | none => (sv, false)

/-- The C6 witness scene: one object named "obj" at world (10, 10). -/
def dragWitnessObj : GameObject :=
  { mkGameObject "obj" with
      transform := { position := ⟨10, 10⟩, rotation := 0, scale := ⟨1, 1⟩ } }

/-- The C6 witness view: default camera (800×600 viewport, position
(0, 0), zoom 1), mid-drag on the object, edit mode. -/
def dragWitnessView : SceneView :=
  { camera := initEditorCamera 800 600
    scene := { game_objects := [dragWitnessObj], selected_object := some 0 }
    rect_x := 0
    rect_y := 0
    is_panning := false
    last_mouse_pos := ⟨0, 0⟩
    hovered := true
    is_dragging_object := true
    dragged_object := some 0
    is_playing := false }

/-- Character-list prefix test (needle, haystack), used to embed
Python's `in` substring operator. -/
def startsWithChars : List Char → List Char → Bool
  | [], _ => true
  | _ :: _, [] => false
  | a :: as, b :: bs => a == b && startsWithChars as bs

/-- Character-list substring test: Python's `needle in hay`. -/
def charsContain (needle : List Char) : List Char → Bool
  | [] => startsWithChars needle []
  | b :: rest => startsWithChars needle (b :: rest) || charsContain needle rest

/-- `"scale" in self.property_path.lower()` from `DragLabel.handle_event`
(`src/ui.py`); `.lower()` is embedded as per-character `Char.toLower`
(the repository's property paths are ASCII). -/
def pathHasScale (path : String) : Bool :=
  charsContain "scale".data (path.data.map Char.toLower)

/-- `DragLabel` from `src/ui.py`, restricted to the fields its
pointer-motion branch reads (`scene` and the pygame font are not read
there). -/
structure DragLabel where
  text : String
  property_path : String
  step : ℚ
  is_dragging : Bool
  drag_start_x : ℚ
  drag_start_value : ℚ
  hovered : Bool

/-- The `MOUSEMOTION` branch of `DragLabel.handle_event` from
`src/ui.py`: while dragging, `new_value = drag_start_value +
(mouse_x - drag_start_x) * step`, floored at 0.01 when the property path
contains "scale", then passed to the callback with the property path.
The embedding returns the (path, value) pair handed to the callback, or
`none` when not dragging. -/
def dragLabelMotion (d : DragLabel) (mouse_x : ℚ) : Option (String × ℚ) :=
  if d.is_dragging then
    let total_distance := mouse_x - d.drag_start_x
    let new_value := d.drag_start_value + total_distance * d.step
    let new_value2 := if pathHasScale d.property_path
      then max (1/100) new_value else new_value
    some (d.property_path, new_value2)
  else none

/-- The C7 witness control: a scale-bound drag label with step 0.01,
captured value 1.0, drag started at pointer x = 0. -/
def scaleDragWitness : DragLabel :=
  { text := "X"
    property_path := "transform.scale.x"
    step := 1/100
    is_dragging := true
    drag_start_x := 0
    drag_start_value := 1
    hovered := true }

/-- Numeric value of a run of decimal digit characters. -/
def digitsVal (ds : List Char) : ℕ :=
  ds.foldl (fun a c => 10 * a + (c.toNat - 48)) 0

/-- Maximal `digitpart` of Python's float grammar starting inside a
digit run: digits with single underscores allowed only BETWEEN digits
(PEP 515); returns the digits (underscores removed) and the unconsumed
rest. -/
def digitTail : List Char → List Char × List Char
  | [] => ([], [])
  | c :: rest =>
    if c.isDigit then
      let (ds, r) := digitTail rest
      (c :: ds, r)
    else if c = '_' then
      match rest with
      | d :: rest2 =>
          if d.isDigit then
            let (ds, r) := digitTail rest2
            (d :: ds, r)
          else ([], c :: rest)
      | [] => ([], [c])
    else ([], c :: rest)

/-- A `digitpart` (PEP 515): nonempty, must start with a digit. -/
def digitPart (cs : List Char) : Option (List Char × List Char) :=
  match cs with
  | c :: _ => if c.isDigit then some (digitTail cs) else none
  | [] => none

/-- Exponent digits (a `digitpart`, underscores included) that must
consume the whole remaining input.  The literal's value is carried as
an exact fraction `mant_num / mant_den` and the power of ten is folded
into the numerator or denominator (`mkRat` keeps the arithmetic
kernel-computable). -/
def expDigitsPart (negExp : Bool) (mant_num mant_den : ℕ) (cs : List Char) :
    Option ℚ :=
  match digitPart cs with
  | some (ds, []) =>
      let e := digitsVal ds
      if negExp then some (mkRat mant_num (mant_den * 10 ^ e))
      else some (mkRat (mant_num * 10 ^ e) mant_den)
  | _ => none

/-- Optional exponent suffix after the mantissa: nothing, or `e`/`E`,
an optional sign, and exponent digits ending the literal. -/
def exponentSuffix (mant_num mant_den : ℕ) : List Char → Option ℚ
  | [] => some (mkRat mant_num mant_den)
  | c :: rest =>
    if c = 'e' ∨ c = 'E' then
      match rest with
      | '+' :: r => expDigitsPart false mant_num mant_den r
      | '-' :: r => expDigitsPart true mant_num mant_den r
      | r => expDigitsPart false mant_num mant_den r
    else none

/-- Unsigned numeric float literal: `digitpart`, `digitpart.`,
`digitpart.digitpart` or `.digitpart`, each with an optional exponent;
the value is the digit string read as an integer over
`10 ^ (fraction length)`. -/
def parseNumberChars (cs : List Char) : Option ℚ :=
  match digitPart cs with
  | some (ip, r1) =>
      match r1 with
      | '.' :: r2 =>
          match digitPart r2 with
          | some (fp, r3) =>
              exponentSuffix (digitsVal (ip ++ fp)) (10 ^ fp.length) r3
          | none => exponentSuffix (digitsVal ip) 1 r2
      | _ => exponentSuffix (digitsVal ip) 1 r1
  | none =>
      match cs with
      | '.' :: r2 =>
          match digitPart r2 with
          | some (fp, r3) =>
              exponentSuffix (digitsVal fp) (10 ^ fp.length) r3
          | none => none
      | _ => none

/-- The result of Python's `float(str)`: a finite value (exact in ℚ),
a signed infinity (`inf`/`infinity`; the Bool is the negative sign), or
a not-a-number (`nan`, whose sign Python discards). -/
inductive PyFloatVal where
  | finite : ℚ → PyFloatVal
  | infinite : Bool → PyFloatVal
  | nanV : PyFloatVal
deriving DecidableEq, Repr

/-- The sign-stripped body of a `float(str)` conversion: the
case-insensitive special words `inf`/`infinity`/`nan`, or a numeric
literal. -/
def pyFloatSigned (neg : Bool) (r : List Char) : Option PyFloatVal :=
  let low := r.map Char.toLower
  if low = "inf".data ∨ low = "infinity".data then some (.infinite neg)
  else if low = "nan".data then some .nanV
  else (parseNumberChars r).map fun q => .finite (if neg then -q else q)

/-- Python's `float(str)`: surrounding whitespace is stripped, an
optional sign precedes the body (special word, or numeric literal with
PEP 515 underscore grouping). -/
def pyFloatOfString (s : String) : Option PyFloatVal :=
  let t := ((s.data.dropWhile Char.isWhitespace).reverse.dropWhile
    Char.isWhitespace).reverse
  match t with
  | '+' :: r => pyFloatSigned false r
  | '-' :: r => pyFloatSigned true r
  | r => pyFloatSigned false r

/-- A Python attribute graph value: a number, a string, a boolean, or an
object carrying a mutable attribute dictionary (embedded as an
association list).  The editor's binding paths traverse only the acyclic
data attributes, so the graph is embedded as a tree; the cyclic
back-references (`components`, `children`, `parent`, `game_object`) are
never traversed by a binding and are omitted. -/
inductive PyVal where
  | num : ℚ → PyVal
  | str : String → PyVal
  | boolV : Bool → PyVal
  | obj : List (String × PyVal) → PyVal

/-- Attribute lookup in an object's attribute dictionary (`getattr`). -/
def lookupAttr : List (String × PyVal) → String → Option PyVal
  | [], _ => none
  | (k, v) :: rest, name => if k == name then some v else lookupAttr rest name

/-- `setattr`: replace the attribute if present, otherwise CREATE it —
Python's `setattr` never fails on a plain object for a missing name. -/
def setAttr (attrs : List (String × PyVal)) (name : String) (v : PyVal) :
    List (String × PyVal) :=
  match attrs with
  | [] => [(name, v)]
  | (k, w) :: rest =>
      if k == name then (k, v) :: rest else (k, w) :: setAttr rest name v

/-- Sequential `getattr` along a dotted path (`target = getattr(target,
part)` for each part); fails (raises `AttributeError`, in Python) if a
segment is missing or an intermediate value is not an object. -/
def resolveAttrs : PyVal → List String → Option PyVal
  | v, [] => some v
  | .obj attrs, p :: ps =>
      match lookupAttr attrs p with
      | some v => resolveAttrs v ps
      | none => none
  | _, _ :: _ => none

/-- Python's `str.split('.')`, on character lists. -/
def splitOnDot : List Char → List (List Char)
  | [] => [[]]
  | '.' :: rest => [] :: splitOnDot rest
  | c :: rest =>
      match splitOnDot rest with
      | [] => [[c]]
      | g :: gs => (c :: g) :: gs

/-- `property_path.split('.')`. -/
def splitPath (s : String) : List String :=
  (splitOnDot s.data).map fun l => ⟨l⟩

/-- Python's `float(target)` as used on resolved binding targets:
numbers convert exactly, booleans to 0/1, strings parse as float
literals; objects raise `TypeError` (a failure).  A string parsing to
a non-finite float has no exact-rational counterpart and is treated as
a failure: it is unreachable through the editor's binding paths, whose
only string attribute (`name`) never holds a float literal. -/
def pyFloat : PyVal → Option ℚ
  | .num q => some q
  | .boolV b => some (cond b 1 0)
  | .str s =>
      match pyFloatOfString s with
      | some (.finite q) => some q
      | _ => none
  | .obj _ => none

/-- `DragLabel.get_current_value` from `src/ui.py`: if an object is
selected, resolve the dotted path from it by sequential `getattr` and
convert with `float(...)`; any failure (`except`) and the no-selection
case return the fallback 0.0. -/
def get_current_value (sel : Option PyVal) (path : String) : ℚ :=
  match sel with
  | some o =>
      match (resolveAttrs o (splitPath path)).bind pyFloat with
      | some q => q
      | none => 0
  | none => 0

/-- The write path of `InspectorPanel.on_value_change` from `src/ui.py`:
navigate `getattr` through all path segments but the last, then
`setattr` the final segment on the resulting object.  Fails (raising,
in Python) when a prefix segment is missing or the `setattr` target is
not an object; succeeds — creating the final attribute if absent —
otherwise. -/
def setAttrPath : PyVal → List String → ℚ → Option PyVal
  | .obj attrs, [last], value => some (.obj (setAttr attrs last (.num value)))
  | .obj attrs, p :: ps, value =>
      match lookupAttr attrs p with
      | some t =>
          match setAttrPath t ps value with
          | some t2 => some (.obj (setAttr attrs p t2))
          | none => none
      | none => none
  | _, _, _ => none

/-- `InspectorPanel.on_value_change(property_path, value)`: no-op when
nothing is selected; otherwise attempt the path write, and on failure
(`except Exception`) print a diagnostic line and leave the object
untouched.  Returns the selected object graph afterwards and whether
the diagnostic line was printed.  (The input-field display refresh
inside the `try` cannot raise and does not touch the object graph.) -/
def on_value_change (sel : Option PyVal) (path : String) (value : ℚ) :
    Option PyVal × Bool :=
  match sel with
  | none => (none, false)
  | some o =>
      match setAttrPath o (splitPath path) value with
      | some o2 => (some o2, false)
      | none => (some o, true)

/-- The attribute dictionary of a freshly constructed `GameObject`
(data attributes reachable by binding paths). -/
def defaultGameObjectAttrs : List (String × PyVal) :=
  [("name", .str "GameObject"),
   ("transform", .obj
      [("position", .obj [("x", .num 0), ("y", .num 0)]),
       ("rotation", .num 0),
       ("scale", .obj [("x", .num 1), ("y", .num 1)])]),
   ("selected", .boolV false),
   ("visible", .boolV true)]

/-- A freshly constructed `GameObject` as an attribute graph. -/
def defaultGameObjectVal : PyVal := .obj defaultGameObjectAttrs

/-- A write's resolution succeeds when the path is nonempty and its
prefix (all segments but the last) resolves to an object. -/
def writeTargetOk (o : PyVal) (parts : List String) : Bool :=
  match parts with
  | [] => false
  | _ :: _ =>
      match resolveAttrs o parts.dropLast with
      | some (.obj _) => true
      | _ => false

/-- `TextInput` from `src/ui.py`, restricted to the fields
`confirm_value` / `deactivate` read or write. -/
structure TextInput where
  value : String
  display_value : String
  property_path : String
  is_active : Bool
  cursor_pos : ℕ
  selection_start : ℕ
  selection_end : ℕ
deriving DecidableEq, Repr

/-- `TextInput.deactivate`. -/
def deactivateTextInput (t : TextInput) : TextInput :=
  { t with is_active := false, selection_start := 0, selection_end := 0 }

/-- `TextInput.confirm_value` from `src/ui.py`: try `float(self.value)`;
on success call the bound callback with the parsed number, promote the
text to `display_value`, deactivate, and return `True`; on `ValueError`
revert `value` to `display_value`, put the cursor at its end, and return
`False` (no deactivation, no callback).  `handle_event` invokes this on
`K_RETURN`/`K_KP_ENTER` while the field is active.  The embedding
returns the new state, the (path, value) write handed to the callback
(if any), and the method's boolean result. -/
def confirm_value (t : TextInput) :
    TextInput × Option (String × PyFloatVal) × Bool :=
  match pyFloatOfString t.value with
  | some numeric_value =>
      (deactivateTextInput { t with display_value := t.value },
        some (t.property_path, numeric_value), true)
  | none =>
      ({ t with value := t.display_value, cursor_pos := t.display_value.length },
        none, false)

/-- C1: for every world point and every camera whose zoom lies in
[0.1, 10.0], `screen_to_world` after `world_to_screen` returns the world
point exactly (exact rational arithmetic; exactness entails the spec's
1e-6 floating tolerance). -/
theorem screen_world_round_trip (c : EditorCamera) (world : Vec2)
    (hlo : 1/10 ≤ c.zoom) (hhi : c.zoom ≤ 10) :
    screen_to_world c (world_to_screen c world) = world := by
  have hz : c.zoom ≠ 0 := by positivity
  ext <;> simp only [screen_to_world, world_to_screen] <;> field_simp

/-- Witness for C1 at a concrete camera (640×480 viewport, zoom 2,
position (3, -7)) and world point (11, 13). -/
theorem screen_world_round_trip_witness :
    screen_to_world
      { initEditorCamera 640 480 with zoom := 2, position := ⟨3, -7⟩ }
      (world_to_screen
        { initEditorCamera 640 480 with zoom := 2, position := ⟨3, -7⟩ } ⟨11, 13⟩)
      = ⟨11, 13⟩ :=
  screen_world_round_trip _ _ (by norm_num) (by norm_num)

/-- C2: zoom anchoring.  With exact arithmetic the position-correction
step of `zoom_at_point` keeps the world point under the anchor screen
point exactly unchanged — both when the multiplied zoom stays in range
and when it clamps at a boundary — and (trivially, in the exact rational
model) every produced position value is a finite rational.  The
hypotheses ask only what is needed for the divisions to be by nonzero
zooms: a positive current zoom and a positive `min_zoom` (0.1 in the
source). -/
theorem zoom_at_point_anchor (c : EditorCamera) (p : Vec2) (factor : ℚ)
    (hz : 0 < c.zoom) (hmin : 0 < c.min_zoom) :
    screen_to_world (zoom_at_point c p factor) p = screen_to_world c p := by
  have hz' : 0 < max c.min_zoom (min c.max_zoom (c.zoom * factor)) :=
    lt_max_of_lt_left hmin
  have hz0 : c.zoom ≠ 0 := ne_of_gt hz
  have hz0' : max c.min_zoom (min c.max_zoom (c.zoom * factor)) ≠ 0 := ne_of_gt hz'
  ext <;> simp only [zoom_at_point, screen_to_world] <;> ring

/-- Witness for C2: camera at (5, 6), zoom 1, default limits, anchor
point (100, 40), factor 20 (which clamps at `max_zoom = 10`). -/
theorem zoom_at_point_anchor_witness :
    screen_to_world
      (zoom_at_point
        { initEditorCamera 800 600 with position := ⟨5, 6⟩ } ⟨100, 40⟩ 20)
      ⟨100, 40⟩
      = screen_to_world { initEditorCamera 800 600 with position := ⟨5, 6⟩ } ⟨100, 40⟩ :=
  zoom_at_point_anchor _ _ _ (by norm_num [initEditorCamera]) (by norm_num [initEditorCamera])

/-- One step of the C3 invariant. -/
theorem applyOp_zoomInv (c : EditorCamera) (op : CameraOp)
    (h : ZoomInv c) : ZoomInv (applyOp c op) := by
  obtain ⟨hmin, hmax, hlo, hhi⟩ := h
  cases op with
  | zoomAt p f =>
      refine ⟨hmin, hmax, ?_, ?_⟩
      · simpa [applyOp, zoom_at_point, hmin] using le_max_left _ _
      · simp only [applyOp, zoom_at_point]
        exact max_le (by rw [hmin]; norm_num) ((min_le_left _ _).trans (le_of_eq hmax))
  | panBy dx dy => exact ⟨hmin, hmax, hlo, hhi⟩
  | resetViewOp =>
      exact ⟨hmin, hmax, by norm_num [applyOp, reset_view], by norm_num [applyOp, reset_view]⟩
  | resetZoomOp =>
      exact ⟨hmin, hmax, by norm_num [applyOp, reset_zoom], by norm_num [applyOp, reset_zoom]⟩

/-- C3: the camera's zoom is an invariant held in [0.1, 10.0].  Starting
from any camera with the stock limits and an in-range zoom (in particular
from `initEditorCamera`), any finite sequence of camera operations —
`zoom_at_point` with any factor (positive ones included), `pan`,
`reset_view`, `reset_zoom` — leaves `zoom` inside [0.1, 10.0], so a
caller can never observe an out-of-range zoom. -/
theorem zoom_always_in_range (c : EditorCamera) (ops : List CameraOp)
    (h : ZoomInv c) :
    1/10 ≤ (applyOps c ops).zoom ∧ (applyOps c ops).zoom ≤ 10 := by
  suffices hinv : ZoomInv (applyOps c ops) from ⟨hinv.2.2.1, hinv.2.2.2⟩
  induction ops generalizing c with
  | nil => exact h
  | cons op rest ih => exact ih _ (applyOp_zoomInv c op h)

/-- Witness for C3: a fresh camera, zooming out far past the lower clamp,
panning, zooming in far past the upper clamp, and resetting. -/
theorem zoom_always_in_range_witness :
    1/10 ≤ (applyOps (initEditorCamera 800 600)
        [.zoomAt ⟨0, 0⟩ (1/1000), .panBy 3 4, .zoomAt ⟨10, 10⟩ 5000,
         .resetZoomOp, .zoomAt ⟨1, 2⟩ 2]).zoom ∧
      (applyOps (initEditorCamera 800 600)
        [.zoomAt ⟨0, 0⟩ (1/1000), .panBy 3 4, .zoomAt ⟨10, 10⟩ 5000,
         .resetZoomOp, .zoomAt ⟨1, 2⟩ 2]).zoom ≤ 10 :=
  zoom_always_in_range _ _ (by refine ⟨rfl, rfl, ?_, ?_⟩ <;> norm_num [initEditorCamera])

theorem length_updateAt (l : List GameObject) (i : ℕ) (f : GameObject → GameObject) :
    (updateAt l i f).length = l.length := by
  induction l generalizing i with
  | nil => rfl
  | cons o rest ih => cases i with
    | zero => rfl
    | succ n => simpa [updateAt] using ih n

theorem getElem?_updateAt_self (l : List GameObject) (i : ℕ)
    (f : GameObject → GameObject) :
    (updateAt l i f)[i]? = l[i]?.map f := by
  induction l generalizing i with
  | nil => cases i <;> simp [updateAt, List.getElem?_nil]
  | cons o rest ih => cases i with
    | zero => simp [updateAt, List.getElem?_cons_zero]
    | succ n =>
        simp only [updateAt, List.getElem?_cons_succ]
        exact ih n

theorem getElem?_updateAt_ne (l : List GameObject) (i j : ℕ)
    (f : GameObject → GameObject) (hne : i ≠ j) :
    (updateAt l i f)[j]? = l[j]? := by
  induction l generalizing i j with
  | nil => cases j <;> simp [updateAt, List.getElem?_nil]
  | cons o rest ih =>
    cases i with
    | zero => cases j with
      | zero => exact absurd rfl hne
      | succ m => simp [updateAt, List.getElem?_cons_succ]
    | succ n => cases j with
      | zero => simp [updateAt, List.getElem?_cons_zero]
      | succ m =>
          simp only [updateAt, List.getElem?_cons_succ]
          exact ih n m (fun hc => hne (by rw [hc]))

theorem length_select_object (s : Scene) (c : Option ℕ) :
    (select_object s c).game_objects.length = s.game_objects.length := by
  unfold select_object
  cases s.selected_object <;> cases c <;> simp [length_updateAt]

theorem selected_object_select_object (s : Scene) (c : Option ℕ) :
    (select_object s c).selected_object = c := by
  unfold select_object
  cases s.selected_object <;> cases c <;> rfl

/-- After `select_object`, the entry at any index other than the call's
target and the old selection is what it was before. -/
theorem select_object_getElem?_other (s : Scene) (c : Option ℕ) (j : ℕ)
    (hold : s.selected_object ≠ some j) (hc : c ≠ some j) :
    (select_object s c).game_objects[j]? = s.game_objects[j]? := by
  unfold select_object
  cases hso : s.selected_object with
  | none =>
      cases hcc : c with
      | none => rfl
      | some k =>
          have hk : k ≠ j := fun hkj => hc (by rw [hcc, hkj])
          exact getElem?_updateAt_ne _ k j _ hk
  | some i =>
      have hi : i ≠ j := fun hij => hold (by rw [hso, hij])
      cases hcc : c with
      | none => exact getElem?_updateAt_ne _ i j _ hi
      | some k =>
          have hk : k ≠ j := fun hkj => hc (by rw [hcc, hkj])
          simp only []
          rw [getElem?_updateAt_ne _ k j _ hk, getElem?_updateAt_ne _ i j _ hi]

/-- After `select_object` with target `some k`, the object stored at
index `k` has its `selected` flag set. -/
theorem select_object_target_selected (s : Scene) (k : ℕ) (o : GameObject)
    (h : (select_object s (some k)).game_objects[k]? = some o) :
    o.selected = true := by
  unfold select_object at h
  cases hso : s.selected_object with
  | none =>
      rw [hso] at h
      simp only [] at h
      rw [getElem?_updateAt_self] at h
      obtain ⟨o0, _, ho⟩ := Option.map_eq_some'.mp h
      rw [← ho]
  | some i =>
      rw [hso] at h
      simp only [] at h
      rw [getElem?_updateAt_self] at h
      obtain ⟨o0, _, ho⟩ := Option.map_eq_some'.mp h
      rw [← ho]

/-- After `select_object`, the previously selected object's flag is
cleared, unless the same call re-targets it. -/
theorem select_object_old_cleared (s : Scene) (i : ℕ) (c : Option ℕ)
    (hso : s.selected_object = some i) (hc : c ≠ some i) (o : GameObject)
    (h : (select_object s c).game_objects[i]? = some o) :
    o.selected = false := by
  unfold select_object at h
  rw [hso] at h
  cases hcc : c with
  | none =>
      rw [hcc] at h
      simp only [] at h
      rw [getElem?_updateAt_self] at h
      obtain ⟨o0, _, ho⟩ := Option.map_eq_some'.mp h
      rw [← ho]
  | some k =>
      have hk : k ≠ i := fun hki => hc (by rw [hcc, hki])
      rw [hcc] at h
      simp only [] at h
      rw [getElem?_updateAt_ne _ k i _ hk, getElem?_updateAt_self] at h
      obtain ⟨o0, _, ho⟩ := Option.map_eq_some'.mp h
      rw [← ho]

theorem select_object_selInv (s : Scene) (c : Option ℕ)
    (hpre : SelInv s) (hc : ∀ k, c = some k → k < s.game_objects.length) :
    SelInv (select_object s c) := by
  constructor
  · intro i hi
    rw [selected_object_select_object] at hi
    rw [length_select_object]
    exact hc i hi
  · intro j o hj hsel
    rw [selected_object_select_object]
    by_contra hne
    have hcj : c ≠ some j := fun hcc => hne (by rw [hcc])
    cases hso : s.selected_object with
    | none =>
        rw [select_object_getElem?_other s c j (by rw [hso]; exact fun hx => Option.noConfusion hx) hcj] at hj
        have h2 := hpre.2 j o hj hsel
        rw [hso] at h2
        exact Option.noConfusion h2
    | some i =>
        by_cases hij : i = j
        · subst hij
          have := select_object_old_cleared s i c hso
            (fun hcc => hcj hcc) o hj
          rw [hsel] at this
          exact Bool.noConfusion this
        · rw [select_object_getElem?_other s c j
            (by rw [hso]; intro hx; exact hij (Option.some.inj hx)) hcj] at hj
          have h2 := hpre.2 j o hj hsel
          rw [hso] at h2
          exact hij (Option.some.inj h2)

theorem applySelects_length (s : Scene) (calls : List (Option ℕ)) :
    (applySelects s calls).game_objects.length = s.game_objects.length := by
  induction calls generalizing s with
  | nil => rfl
  | cons c rest ih =>
      exact (ih (select_object s c)).trans (length_select_object s c)

theorem applySelects_selInv (s : Scene) (calls : List (Option ℕ))
    (hpre : SelInv s)
    (hcalls : ∀ c ∈ calls, ∀ k, c = some k → k < s.game_objects.length) :
    SelInv (applySelects s calls) := by
  induction calls generalizing s with
  | nil => exact hpre
  | cons c rest ih =>
      have h1 : SelInv (select_object s c) :=
        select_object_selInv s c hpre (hcalls c (by simp))
      have h2 : ∀ c2 ∈ rest, ∀ k, c2 = some k → k < (select_object s c).game_objects.length := by
        intro c2 hc2 k hk
        rw [length_select_object]
        exact hcalls c2 (by simp [hc2]) k hk
      exact ih (select_object s c) h1 h2

theorem applySelects_append_single (s : Scene) (l : List (Option ℕ)) (c : Option ℕ) :
    applySelects s (l ++ [c]) = select_object (applySelects s l) c := by
  simp [applySelects, List.foldl_append]

theorem applySelects_last (s : Scene) (calls : List (Option ℕ)) (c : Option ℕ)
    (hlast : calls.getLast? = some c) :
    (applySelects s calls).selected_object = c := by
  induction calls generalizing s with
  | nil => exact Option.noConfusion hlast
  | cons c0 rest ih =>
      cases rest with
      | nil =>
          have hc : c0 = c := by
            have h0 : ([c0] : List (Option ℕ)).getLast? = some c0 := rfl
            rw [h0] at hlast
            exact Option.some.inj hlast
          subst hc
          exact selected_object_select_object s c0
      | cons c1 rest2 =>
          have h1 : (c1 :: rest2).getLast? = some c := by
            rwa [List.getLast?_cons_cons] at hlast
          exact ih (select_object s c0) h1

/-- C4: selection exclusivity.  Starting from a scene where at most one
object has `selected = true` and that object is `scene.selected_object`
(formalised by `SelInv`), after any finite in-range sequence of
`select_object` calls: (a) the invariant still holds — at most one object
in the scene is marked selected and it is exactly the tracked selection —
(b) the tracked selection is exactly the argument of the last call,
(c) if the last call selected object `i`, that object's flag is set, and
(d) if the last call passed `None`, no object in the scene is marked
selected.  The unset-previous step happens inside the same
`select_object` operation. -/
theorem selection_exclusivity (s : Scene) (calls : List (Option ℕ))
    (hpre : SelInv s)
    (hcalls : ∀ c ∈ calls, ∀ k, c = some k → k < s.game_objects.length)
    (hne : calls ≠ []) :
    SelInv (applySelects s calls) ∧
    (applySelects s calls).selected_object = calls.getLast hne ∧
    (∀ i, calls.getLast hne = some i →
      ∀ o : GameObject, (applySelects s calls).game_objects[i]? = some o →
        o.selected = true) ∧
    (calls.getLast hne = none →
      ∀ (j : ℕ) (o : GameObject), (applySelects s calls).game_objects[j]? = some o →
        o.selected = false) := by
  have hinv := applySelects_selInv s calls hpre hcalls
  have hlastq : calls.getLast? = some (calls.getLast hne) :=
    List.getLast?_eq_getLast_of_ne_nil hne
  have hsel : (applySelects s calls).selected_object = calls.getLast hne :=
    applySelects_last s calls _ hlastq
  refine ⟨hinv, hsel, ?_, ?_⟩
  · -- the last call's target is flag-selected
    intro i hi o ho
    have hsplit : calls.dropLast ++ [calls.getLast hne] = calls :=
      List.dropLast_append_getLast hne
    have happ : applySelects s calls
        = select_object (applySelects s calls.dropLast) (calls.getLast hne) := by
      rw [← applySelects_append_single, hsplit]
    rw [hi] at happ
    rw [happ] at ho
    exact select_object_target_selected _ i o ho
  · -- last call `None` → nothing in the scene is marked selected
    intro hnone j o hj
    cases hb : o.selected with
    | false => rfl
    | true =>
        have h2 := hinv.2 j o hj hb
        rw [hsel, hnone] at h2
        exact Option.noConfusion h2

/-- Witness for C4: two fresh objects, nothing selected; calls select
object 0, then object 1, then `None`, then object 1 again; the final
selection is object 1. -/
theorem selection_exclusivity_witness :
    (applySelects
        { game_objects := [mkGameObject "a", mkGameObject "b"], selected_object := none }
        [some 0, some 1, none, some 1]).selected_object = some 1 := by
  have h := selection_exclusivity
    { game_objects := [mkGameObject "a", mkGameObject "b"], selected_object := none }
    [some 0, some 1, none, some 1]
    (by
      constructor
      · intro i hi
        exact Option.noConfusion hi
      · intro j o hj hsel
        exfalso
        match j with
        | 0 =>
            have : o = mkGameObject "a" := (Option.some.inj hj).symm
            rw [this] at hsel
            exact Bool.noConfusion hsel
        | 1 =>
            have : o = mkGameObject "b" := (Option.some.inj hj).symm
            rw [this] at hsel
            exact Bool.noConfusion hsel
        | n + 2 =>
            rw [show ([mkGameObject "a", mkGameObject "b"] : List GameObject)[n+2]? = none by
              simp] at hj
            exact Option.noConfusion hj)
    (by
      intro c hc k hk
      subst hk
      simp only [List.mem_cons, List.not_mem_nil, or_false] at hc
      rcases hc with h | h | h | h
      · rw [Option.some.inj h]; decide
      · rw [Option.some.inj h]; decide
      · exact Option.noConfusion h
      · rw [Option.some.inj h]; decide)
    (by simp)
  exact h.2.1.trans rfl

theorem findHit_eq_find? (l : List GameObject) (x y : ℚ) :
    findHit l x y = l.find? (fun o => hitsEllipse o x y) := by
  induction l with
  | nil => rfl
  | cons obj rest ih =>
      by_cases hv : obj.visible
      · by_cases hin : ((x - obj.transform.position.x) / (32 * max (1/100) |obj.transform.scale.x| / 2)) ^ 2
            + ((y - obj.transform.position.y) / (32 * max (1/100) |obj.transform.scale.y| / 2)) ^ 2 ≤ 1
        · have hh : hitsEllipse obj x y = true := by
            simp only [hitsEllipse, hv, Bool.true_and, decide_eq_true_eq]
            exact hin
          simp only [findHit, hv, if_true, List.find?_cons, hh]
          rw [if_pos]
          ring_nf
          ring_nf at hin
          exact hin
        · have hh : hitsEllipse obj x y = false := by
            simp only [hitsEllipse, hv, Bool.true_and, decide_eq_false_iff_not]
            exact hin
          simp only [findHit, hv, if_true, List.find?_cons, hh]
          rw [if_neg]
          · exact ih
          · intro hcon
            apply hin
            ring_nf
            ring_nf at hcon
            exact hcon
      · have hv' : obj.visible = false := by
          cases hb : obj.visible
          · rfl
          · exact absurd hb hv
        have hh : hitsEllipse obj x y = false := by
          simp [hitsEllipse, hv']
        simp only [findHit, hv', if_false, List.find?_cons, hh]
        exact ih

/-- C5: `get_object_at_position` returns the first object of the object
list, iterated in reverse insertion order, that is visible and whose
normalized ellipse footprint contains the query point — i.e. it equals
`find?` of the footprint predicate on the reversed list — and it returns
`none` exactly when no visible object's footprint contains the point.
Invisible objects are never returned (they fail the predicate by its
first conjunct, hence are never the `find?` result). -/
theorem get_object_at_position_spec (s : Scene) (x y : ℚ) :
    get_object_at_position s x y
        = s.game_objects.reverse.find? (fun o => hitsEllipse o x y) ∧
      (get_object_at_position s x y = none ↔
        ∀ o ∈ s.game_objects, hitsEllipse o x y = false) := by
  constructor
  · exact findHit_eq_find? _ x y
  · rw [get_object_at_position, findHit_eq_find? _ x y]
    rw [List.find?_eq_none]
    constructor
    · intro h o ho
      have := h o (List.mem_reverse.mpr ho)
      cases hb : hitsEllipse o x y
      · rfl
      · exact absurd hb this
    · intro h o ho
      rw [h o (List.mem_reverse.mp ho)]
      exact Bool.false_ne_true

theorem findHitM_state (s : Scene) (l : List GameObject) (x y : ℚ) :
    (findHitM s l x y).1 = s := by
  induction l with
  | nil => rfl
  | cons obj rest ih =>
      by_cases hv : obj.visible <;> by_cases hh : hitsEllipse obj x y <;>
        simp [findHitM, hv, hh, ih]

/-- C10: hit-testing is a pure query.  The scene coming out of a
`get_object_at_position` call is the scene that went in — the object
list (hence its order and every object's name, transform, `selected`
flag and `visible` flag) and `selected_object` are unchanged — and the
returned object is a function of the query point and that state alone
(it equals the pure `get_object_at_position`). -/
theorem get_object_at_position_pure (s : Scene) (x y : ℚ) :
    (get_object_at_position_method s x y).1.game_objects = s.game_objects ∧
    (get_object_at_position_method s x y).1.selected_object = s.selected_object ∧
    (∀ (j : ℕ), (get_object_at_position_method s x y).1.game_objects[j]?
      = s.game_objects[j]?) ∧
    (get_object_at_position_method s x y).2 = get_object_at_position s x y := by
  have hst : (get_object_at_position_method s x y).1 = s :=
    findHitM_state s s.game_objects.reverse x y
  have hres : ∀ (l : List GameObject),
      (findHitM s l x y).2 = l.find? (fun o => hitsEllipse o x y) := by
    intro l
    induction l with
    | nil => rfl
    | cons obj rest ih =>
        by_cases hv : obj.visible
        · by_cases hh : hitsEllipse obj x y
          · have hh2 : hitsEllipse obj x y = true := hh
            simp [findHitM, hv, hh2, List.find?_cons]
          · have hh2 : hitsEllipse obj x y = false := by
              cases hb : hitsEllipse obj x y
              · rfl
              · exact absurd hb hh
            simp [findHitM, hv, hh2, List.find?_cons, ih]
        · have hv2 : obj.visible = false := by
            cases hb : obj.visible
            · rfl
            · exact absurd hb hv
          have hh2 : hitsEllipse obj x y = false := by simp [hitsEllipse, hv2]
          simp [findHitM, hv2, hh2, List.find?_cons, ih]
  refine ⟨by rw [hst], by rw [hst], fun j => by rw [hst], ?_⟩
  rw [get_object_at_position, get_object_at_position_method, hres, findHit_eq_find?]

/-- C6: while an object drag is in progress in edit mode (hovered, not
panning, dragging flag set, a dragged object present, not playing),
a pointer-move event sets the dragged object's `transform.position` to
exactly `camera.screen_to_world` of the current local pointer position —
an absolute snap to the cursor, independent of where the drag started —
and the handler consumes the event. -/
theorem drag_move_snaps_to_cursor (sv : SceneView) (mouse : Vec2) (i : ℕ)
    (hh : sv.hovered = true) (hp : sv.is_panning = false)
    (hd : sv.is_dragging_object = true) (hi : sv.dragged_object = some i)
    (hpl : sv.is_playing = false) :
    (handle_mouse_motion sv mouse).2 = true ∧
    ∀ o : GameObject, sv.scene.game_objects[i]? = some o →
      (handle_mouse_motion sv mouse).1.scene.game_objects[i]?
        = some { o with transform := { o.transform with
            position := screen_to_world sv.camera
              ⟨mouse.x - sv.rect_x, mouse.y - sv.rect_y⟩ } } := by
  have hexp : handle_mouse_motion sv mouse
      = ({ sv with
            scene := { sv.scene with
              game_objects := updateAt sv.scene.game_objects i
                (fun o => { o with
                  transform := { o.transform with
                    position := screen_to_world sv.camera
                      ⟨mouse.x - sv.rect_x, mouse.y - sv.rect_y⟩ } }) } },
          true) := by
    unfold handle_mouse_motion
    rw [hh, hp, hi, hd, hpl]
    simp
  constructor
  · rw [hexp]
  · intro o ho
    rw [hexp]
    simp only []
    rw [getElem?_updateAt_self, ho]
    rfl

/-- Witness for C6, the spec's concrete case: camera at (0,0) with zoom
1, object at world (10,10); a pointer position whose
`screen_to_world` is (50, 60) (local (450, 360) against viewport center
(400, 300)) leaves the object's position at exactly (50, 60). -/
theorem drag_move_snaps_to_cursor_witness :
    (handle_mouse_motion dragWitnessView ⟨450, 360⟩).1.scene.game_objects[0]?
      = some { dragWitnessObj with transform := { dragWitnessObj.transform with
          position := ⟨50, 60⟩ } } := by
  have h := (drag_move_snaps_to_cursor dragWitnessView ⟨450, 360⟩ 0
    rfl rfl rfl rfl rfl).2 dragWitnessObj rfl
  rw [h]
  have : screen_to_world dragWitnessView.camera ⟨450 - dragWitnessView.rect_x,
      360 - dragWitnessView.rect_y⟩ = ⟨50, 60⟩ := by
    simp only [dragWitnessView, screen_to_world, initEditorCamera]
    norm_num
  rw [this]

/-- C7: for a `DragLabel` drag in progress with captured start value
`v0` and start pointer x `x0`, a pointer-move at `x` writes
`v0 + (x - x0) * step` through the binding, additionally floored at
0.01 when the bound property path contains "scale". -/
theorem drag_label_motion_value (d : DragLabel) (mouse_x : ℚ)
    (h : d.is_dragging = true) :
    dragLabelMotion d mouse_x
      = some (d.property_path,
          if pathHasScale d.property_path
          then max (1/100) (d.drag_start_value + (mouse_x - d.drag_start_x) * d.step)
          else d.drag_start_value + (mouse_x - d.drag_start_x) * d.step) := by
  unfold dragLabelMotion
  rw [h]
  simp

/-- Witness for C7, the spec's concrete cases: a +500-pixel drag yields
6.0 and a −500-pixel drag yields the floor 0.01, never a negative
value. -/
theorem drag_label_motion_value_witness :
    dragLabelMotion scaleDragWitness 500 = some ("transform.scale.x", 6) ∧
    dragLabelMotion scaleDragWitness (-500) = some ("transform.scale.x", 1/100) := by
  have hps : pathHasScale "transform.scale.x" = true := by decide
  constructor
  · rw [drag_label_motion_value scaleDragWitness 500 rfl]
    simp only [scaleDragWitness, hps, if_true]
    norm_num
  · rw [drag_label_motion_value scaleDragWitness (-500) rfl]
    simp only [scaleDragWitness, hps, if_true]
    norm_num

theorem setAttrPath_eq_none_iff (parts : List String) (o : PyVal) (value : ℚ) :
    setAttrPath o parts value = none ↔ writeTargetOk o parts = false := by
  induction parts generalizing o with
  | nil => cases o <;> simp [setAttrPath, writeTargetOk]
  | cons p ps ih =>
      cases ps with
      | nil =>
          cases o <;> simp [setAttrPath, writeTargetOk, resolveAttrs]
      | cons p2 ps2 =>
          cases o with
          | obj attrs =>
              cases hl : lookupAttr attrs p with
              | none =>
                  simp [setAttrPath, hl, writeTargetOk, resolveAttrs,
                    List.dropLast_cons₂]
              | some t =>
                  have hwt : writeTargetOk (.obj attrs) (p :: p2 :: ps2)
                      = writeTargetOk t (p2 :: ps2) := by
                    simp [writeTargetOk, List.dropLast_cons₂, resolveAttrs, hl]
                  rw [hwt, ← ih t]
                  cases hs : setAttrPath t (p2 :: ps2) value <;>
                    simp [setAttrPath, hl, hs]
          | num q => simp [setAttrPath, writeTargetOk, resolveAttrs]
          | str s => simp [setAttrPath, writeTargetOk, resolveAttrs]
          | boolV b => simp [setAttrPath, writeTargetOk, resolveAttrs]

/-- C8 counterexample: the claim as stated — "every binding write whose
path fails to resolve against the selected object is dropped after
emitting a diagnostic" — is false on the code.  On a fresh `GameObject`
and path "transform.position.z": the path fails to resolve (reading it
hits the fallback), yet `on_value_change` performs the write without a
diagnostic, because Python's `setattr` creates the missing FINAL
attribute; afterwards the path resolves to the written value 5. -/
theorem stale_path_write_claim_refuted :
    (resolveAttrs defaultGameObjectVal (splitPath "transform.position.z")).isNone = true ∧
    get_current_value (some defaultGameObjectVal) "transform.position.z" = 0 ∧
    (on_value_change (some defaultGameObjectVal) "transform.position.z" 5).2 = false ∧
    (((on_value_change (some defaultGameObjectVal) "transform.position.z" 5).1.bind
        fun o => resolveAttrs o (splitPath "transform.position.z")).bind pyFloat)
      = some 5 := by
  refine ⟨by decide, by decide, by decide, by decide⟩

/-- C8 (amended): binding reads fall back to 0.0 whenever the selected
object is absent or path resolution (or float conversion) fails; a
binding write is dropped after emitting the diagnostic line — with no
exception escaping — exactly when the path's PREFIX (all segments but
the last) fails to resolve to an object; when the prefix resolves, the
write proceeds even if the final segment is missing (Python's `setattr`
creates it). -/
theorem stale_path_resilience_amended (o : PyVal) (path : String) (value : ℚ) :
    get_current_value none path = 0 ∧
    ((resolveAttrs o (splitPath path)).bind pyFloat = none →
      get_current_value (some o) path = 0) ∧
    (writeTargetOk o (splitPath path) = false →
      on_value_change (some o) path value = (some o, true)) ∧
    (writeTargetOk o (splitPath path) = true →
      (on_value_change (some o) path value).2 = false) := by
  refine ⟨rfl, ?_, ?_, ?_⟩
  · intro h
    simp only [get_current_value, h]
  · intro h
    have hs : setAttrPath o (splitPath path) value = none :=
      (setAttrPath_eq_none_iff _ o value).mpr h
    simp only [on_value_change, hs]
  · intro h
    cases hs : setAttrPath o (splitPath path) value with
    | none =>
        have := (setAttrPath_eq_none_iff _ o value).mp hs
        rw [this] at h
        exact Bool.noConfusion h
    | some o2 => simp only [on_value_change, hs]

/-- Witness for C8 (amended), at a concrete broken PREFIX: on a fresh
`GameObject`, writing through "transform.positio.x" (misspelled middle
segment) is dropped with the diagnostic, and reading it falls back to
0. -/
theorem stale_path_resilience_amended_witness :
    on_value_change (some defaultGameObjectVal) "transform.positio.x" 3
      = (some defaultGameObjectVal, true) ∧
    get_current_value (some defaultGameObjectVal) "transform.positio.x" = 0 :=
  ⟨(stale_path_resilience_amended defaultGameObjectVal "transform.positio.x" 3).2.2.1
      (by decide),
   (stale_path_resilience_amended defaultGameObjectVal "transform.positio.x" 3).2.1
      (by decide)⟩

/-- C9: text-field commit.  On Enter over an active field: if the text
parses as a float — a finite decimal literal (underscore grouping
included), or an `inf`/`infinity`/`nan` form — the parsed value is
written through the binding, the display text is promoted, and the
field deactivates; if parsing fails, no write is emitted, `value`
reverts to the last confirmed display text, and the field is NOT
force-deactivated (it stays active); in both cases no exception escapes
(the embedding is total). -/
theorem text_commit_behavior (t : TextInput) (hact : t.is_active = true) :
    (∀ v : PyFloatVal, pyFloatOfString t.value = some v →
      confirm_value t
        = ({ t with
              display_value := t.value,
              is_active := false,
              selection_start := 0,
              selection_end := 0 },
            some (t.property_path, v), true)) ∧
    (pyFloatOfString t.value = none →
      confirm_value t
        = ({ t with
              value := t.display_value,
              cursor_pos := t.display_value.length }, none, false) ∧
      (confirm_value t).1.is_active = true) := by
  constructor
  · intro v hv
    simp only [confirm_value, hv, deactivateTextInput]
  · intro hv
    constructor
    · simp only [confirm_value, hv]
    · simp only [confirm_value, hv]
      exact hact

/-- Witness for C9: an active field bound to "transform.position.x"
whose last confirmed display text is "1.00".  Text "42.5" commits 85/2
and deactivates; the underscore-grouped "1_0" commits 10 and
deactivates; "inf" commits positive infinity and deactivates; "abc"
emits no write, reverts to "1.00", returns `False`, and stays
active. -/
theorem text_commit_behavior_witness :
    confirm_value (TextInput.mk "42.5" "1.00" "transform.position.x" true 4 0 0)
      = (TextInput.mk "42.5" "42.5" "transform.position.x" false 4 0 0,
          some ("transform.position.x", PyFloatVal.finite (85/2)), true) ∧
    confirm_value (TextInput.mk "1_0" "1.00" "transform.position.x" true 3 0 0)
      = (TextInput.mk "1_0" "1_0" "transform.position.x" false 3 0 0,
          some ("transform.position.x", PyFloatVal.finite 10), true) ∧
    confirm_value (TextInput.mk "inf" "1.00" "transform.position.x" true 3 0 0)
      = (TextInput.mk "inf" "inf" "transform.position.x" false 3 0 0,
          some ("transform.position.x", PyFloatVal.infinite false), true) ∧
    (confirm_value (TextInput.mk "abc" "1.00" "transform.position.x" true 3 0 0)
      = (TextInput.mk "1.00" "1.00" "transform.position.x" true 4 0 0,
          none, false) ∧
      (confirm_value
        (TextInput.mk "abc" "1.00" "transform.position.x" true 3 0 0)).1.is_active
        = true) := by
  refine ⟨?_, ?_, ?_, ?_⟩
  · have hq : (mkRat 425 10 : ℚ) = 85/2 := by
      rw [Rat.mkRat_eq_divInt]
      norm_num [Rat.divInt_eq_div]
    have hp : pyFloatOfString "42.5" = some (PyFloatVal.finite (85/2)) := by
      have h0 : pyFloatOfString "42.5" = some (PyFloatVal.finite (mkRat 425 10)) := by
        decide
      rw [h0, hq]
    have h := (text_commit_behavior
      (TextInput.mk "42.5" "1.00" "transform.position.x" true 4 0 0) rfl).1
      (PyFloatVal.finite (85/2)) hp
    rw [h]
  · have hq : (mkRat 10 1 : ℚ) = 10 := by
      rw [Rat.mkRat_eq_divInt]
      norm_num [Rat.divInt_eq_div]
    have hp : pyFloatOfString "1_0" = some (PyFloatVal.finite 10) := by
      have h0 : pyFloatOfString "1_0" = some (PyFloatVal.finite (mkRat 10 1)) := by
        decide
      rw [h0, hq]
    have h := (text_commit_behavior
      (TextInput.mk "1_0" "1.00" "transform.position.x" true 3 0 0) rfl).1
      (PyFloatVal.finite 10) hp
    rw [h]
  · have h := (text_commit_behavior
      (TextInput.mk "inf" "1.00" "transform.position.x" true 3 0 0) rfl).1
      (PyFloatVal.infinite false) (by decide)
    rw [h]
  · have h := (text_commit_behavior
      (TextInput.mk "abc" "1.00" "transform.position.x" true 3 0 0) rfl).2
      (by decide)
    refine ⟨?_, h.2⟩
    rw [h.1]
    have hlen : ("1.00" : String).length = 4 := by decide
    simp [hlen]

end PygameEditor
